import Mathlib

/-!
Verification of the backup_auditor directory-tree comparison tool.

The development shallowly embeds the comparison-relevant logic of
src/main.rs: paths are byte/char lists, the filesystem is an abstract
map from absolute paths to open results, SHA-256 is implemented
executably over Nat words, and the record sink is a small transition
system modelling the mutex-guarded output file.
-/

namespace Audit

/-- Paths are modelled as lists of characters, mirroring Rust strings as
byte sequences for the purposes of prefix/suffix manipulation. -/
abbrev Path := List Char

/-- Model of Rust's str::strip_suffix("/") composed with unwrap_or(m)
as applied in main.rs lines 61-68: removes exactly one trailing slash
when present, otherwise returns the string unchanged. -/
def stripSlash (m : Path) : Path :=
  match m.reverse with
  | c :: r => if c = '/' then r.reverse else m
  | [] => m

/-- Model of Rust's str::strip_ prefix as used on the walked path in
deep_check (main.rs line 127): returns the remainder when d is a
leading segment of p, and none otherwise. -/
def relUnder (d p : Path) : Option Path :=
  match d, p with
  | [], rest => some rest
  | _ :: _, [] => none
  | c :: d1, x :: p1 => if c = x then relUnder d1 p1 else none

/-! ## SHA-256, as implemented by the sha2 crate used in cmp_files.

Words are Nats kept below 2^32; bitwise operations are computed by
explicit binary recursion so that every definition reduces in the
kernel. -/

/-- 2^32, the word modulus. -/
def wsize : Nat := 4294967296

/-- Combine two words bit by bit with f over the low `fuel` bits. -/
def wzip (f : Nat → Nat → Nat) : Nat → Nat → Nat → Nat
  | 0, _, _ => 0
  | fuel + 1, a, b => f (a % 2) (b % 2) + 2 * wzip f fuel (a / 2) (b / 2)

/-- 32-bit exclusive or. -/
def wxor (a b : Nat) : Nat := wzip (fun x y => (x + y) % 2) 32 a b

/-- 32-bit conjunction. -/
def wand (a b : Nat) : Nat := wzip (fun x y => x * y) 32 a b

/-- 32-bit complement (argument assumed below 2^32). -/
def wnot (a : Nat) : Nat := wsize - 1 - a % wsize

/-- Addition modulo 2^32. -/
def wadd (a b : Nat) : Nat := (a + b) % wsize

/-- Rotate a 32-bit word right by n places. -/
def rotr (n a : Nat) : Nat := a / 2 ^ n + a % 2 ^ n * 2 ^ (32 - n)

/-- Logical shift right by n places. -/
def shr (n a : Nat) : Nat := a / 2 ^ n

/-- SHA-256 choose function. -/
def chFn (x y z : Nat) : Nat := wxor (wand x y) (wand (wnot x) z)

/-- SHA-256 majority function. -/
def majFn (x y z : Nat) : Nat := wxor (wxor (wand x y) (wand x z)) (wand y z)

/-- Message-schedule sigma-0. -/
def ssig0 (x : Nat) : Nat := wxor (wxor (rotr 7 x) (rotr 18 x)) (shr 3 x)

/-- Message-schedule sigma-1. -/
def ssig1 (x : Nat) : Nat := wxor (wxor (rotr 17 x) (rotr 19 x)) (shr 10 x)

/-- Round-function Sigma-0. -/
def bsig0 (x : Nat) : Nat := wxor (wxor (rotr 2 x) (rotr 13 x)) (rotr 22 x)

/-- Round-function Sigma-1. -/
def bsig1 (x : Nat) : Nat := wxor (wxor (rotr 6 x) (rotr 11 x)) (rotr 25 x)

/-- The 64 SHA-256 round constants (decimal, FIPS 180-4 order). -/
def k256 : List Nat :=
  [1116352408, 1899447441, 3049323471, 3921009573,
   961987163, 1508970993, 2453635748, 2870763221,
   3624381080, 310598401, 607225278, 1426881987,
   1925078388, 2162078206, 2614888103, 3248222580,
   3835390401, 4022224774, 264347078, 604807628,
   770255983, 1249150122, 1555081692, 1996064986,
   2554220882, 2821834349, 2952996808, 3210313671,
   3336571891, 3584528711, 113926993, 338241895,
   666307205, 773529912, 1294757372, 1396182291,
   1695183700, 1986661051, 2177026350, 2456956037,
   2730485921, 2820302411, 3259730800, 3345764771,
   3516065817, 3600352804, 4094571909, 275423344,
   430227734, 506948616, 659060556, 883997877,
   958139571, 1322822218, 1537002063, 1747873779,
   1955562222, 2024104815, 2227730452, 2361852424,
   2428436474, 2756734187, 3204031479, 3329325298]

/-- The initial SHA-256 hash state (decimal, FIPS 180-4 order). -/
def sha256Init : List Nat :=
  [1779033703, 3144134277, 1013904242, 2773480762,
   1359893119, 2600822924, 528734635, 1541459225]

/-- Big-endian byte encoding of x on n bytes. -/
def toBytesBE : Nat → Nat → List Nat
  | 0, _ => []
  | n + 1, x => toBytesBE n (x / 256) ++ [x % 256]

/-- Merkle-Damgard padding: append 0x80, zero bytes, then the 64-bit
big-endian bit length, reaching a multiple of 64 bytes. -/
def padMsg (msg : List Nat) : List Nat :=
  msg ++ [128] ++ List.replicate ((119 - msg.length % 64) % 64) 0 ++ toBytesBE 8 (8 * msg.length)

/-- Pack bytes into big-endian 32-bit words (fuel-driven). -/
def bytesToWords : Nat → List Nat → List Nat
  | 0, _ => []
  | _ + 1, b0 :: b1 :: b2 :: b3 :: rest =>
      (((b0 * 256 + b1) * 256 + b2) * 256 + b3) :: bytesToWords rest.length rest
  | _ + 1, _ => []

/-- Split a word list into 16-word blocks (fuel-driven). -/
def chunk16 : Nat → List Nat → List (List Nat)
  | 0, _ => []
  | _ + 1, [] => []
  | fuel + 1, ws => ws.take 16 :: chunk16 fuel (ws.drop 16)

/-- Extend a 16-word block by n further schedule words. -/
def extendW : Nat → List Nat → List Nat
  | 0, ws => ws
  | n + 1, ws =>
      let i := ws.length
      let w := wadd (wadd (ssig1 (ws.getD (i - 2) 0)) (ws.getD (i - 7) 0))
                    (wadd (ssig0 (ws.getD (i - 15) 0)) (ws.getD (i - 16) 0))
      extendW n (ws ++ [w])

/-- One compression round: the state is the list [a,b,c,d,e,f,g,h] and
kw is the sum of the round constant and the schedule word. -/
def step8 (st : List Nat) (kw : Nat) : List Nat :=
  match st with
  | a :: b :: c :: d :: e :: f :: g :: h :: _ =>
      let t1 := wadd h (wadd (bsig1 e) (wadd (chFn e f g) kw))
      let t2 := wadd (bsig0 a) (majFn a b c)
      [wadd t1 t2, a, b, c, wadd d t1, e, f, g]
  | _ => st

/-- Compress one 16-word block into the running hash state. -/
def compress (hs : List Nat) (block : List Nat) : List Nat :=
  let ws := extendW 48 block
  let kws := List.zipWith wadd k256 ws
  let st := kws.foldl step8 hs
  List.zipWith wadd hs st

/-- SHA-256 of a byte list, as the sha2 crate computes it in cmp_files:
the digest of the entire streamed content, returned as 32 bytes. -/
def Sha256 (msg : List Nat) : List Nat :=
  let padded := padMsg msg
  let ws := bytesToWords padded.length padded
  let bs := chunk16 ws.length ws
  let hs := bs.foldl compress sha256Init
  hs.flatMap (toBytesBE 4)

/-! ## The filesystem interface and the comparison pipeline.

File::open, File::metadata and io::copy are operating-system calls;
they are modelled at their interface: opening a path either yields a
handle or fails with an error string, and a handle carries the result
of reading its metadata and the result of streaming its full content. -/

/-- The file type reported by metadata, as tested by is_dir, is_symlink
and is_file in cmp_files. -/
inductive FType where
  | dir
  | symlink
  | file
deriving DecidableEq

/-- Whether the metadata denotes a directory. -/
def FType.isDir : FType → Bool
  | .dir => true
  | _ => false

/-- Whether the metadata denotes a symbolic link. -/
def FType.isSymlink : FType → Bool
  | .symlink => true
  | _ => false

/-- Whether the metadata denotes a regular file. -/
def FType.isFile : FType → Bool
  | .file => true
  | _ => false

instance {ε α : Type} [DecidableEq ε] [DecidableEq α] : DecidableEq (Except ε α) := fun x y =>
  match x, y with
  | .ok a, .ok b => decidable_of_iff (a = b) (by simp)
  | .ok _, .error _ => isFalse (fun h => nomatch h)
  | .error _, .ok _ => isFalse (fun h => nomatch h)
  | .error e, .error f => decidable_of_iff (e = f) (by simp)

/-- An open file handle: the result of reading its metadata (may fail)
and the result of streaming its entire content via io::copy (may fail
mid-stream). -/
structure FileHandle where
  meta : Except String FType
  contents : Except String (List Nat)
deriving DecidableEq

/-- A handle whose metadata and content reads both succeed. -/
def mkHandle (ft : FType) (c : List Nat) : FileHandle :=
  ⟨.ok ft, .ok c⟩

/-- A filesystem: each absolute path either opens to a handle or fails
with an error (absent, permission, broken link target, ...). -/
abbrev Fs := Path → Except String FileHandle

/-- One diagnostic record, as written by a single write_all call in
deep_check or cmp_files; each constructor mirrors one format! string
of main.rs. -/
inductive Record where
  | missingInTarget (src tgt : Path) (reason : String)
  | missingInSource (src tgt : Path) (reason : String)
  | missingInBoth (src tgt : Path) (srcReason tgtReason : String)
  | typeMismatch (src tgt : Path)
  | hashMismatch (src : Path) (srcHash : List Nat) (tgt : Path) (tgtHash : List Nat)
deriving DecidableEq

/-- The walked source path a record names (every format! string prints
the src path first). -/
def Record.srcOf : Record → Path
  | .missingInTarget s _ _ => s
  | .missingInSource s _ _ => s
  | .missingInBoth s _ _ _ => s
  | .typeMismatch s _ => s
  | .hashMismatch s _ _ _ => s

/-- Shallow embedding of cmp_files (main.rs lines 177-205): reads both
metadata (unwrap: a failure is a panic, modelled as Except.error), then
applies the decision chain dir/dir, symlink/symlink, file/file, else;
in the file/file branch both contents are fully digested (unwrap on
io::copy likewise panics) and a record is written only when the two
digests differ. -/
def cmp_files (src_path : Path) (src : FileHandle) (tgt_path : Path) (tgt : FileHandle) :
    Except String (List Record) := do
  let src_meta ← src.meta
  let tgt_meta ← tgt.meta
  if src_meta.isDir && tgt_meta.isDir then
    return []
  else if src_meta.isSymlink && tgt_meta.isSymlink then
    return []
  else if src_meta.isFile && tgt_meta.isFile then do
    let src_bytes ← src.contents
    let src_hash := Sha256 src_bytes
    let tgt_bytes ← tgt.contents
    let tgt_hash := Sha256 tgt_bytes
    if src_hash ≠ tgt_hash then
      return [Record.hashMismatch src_path src_hash tgt_path tgt_hash]
    else
      return []
  else
    return [Record.typeMismatch src_path tgt_path]

/-- Shallow embedding of the per-entry body of the walk closure in
deep_check (main.rs lines 125-163): strip the source prefix (unwrap: a
panic if the walked path does not extend the source root), derive the
target path, open both sides, and dispatch on the open results. -/
def process_entry (fs : Fs) (source_dir target_dir : Path) (src_path : Path) :
    Except String (List Record) :=
  match relUnder source_dir src_path with
  | none => .error "strip failed"
  | some stripped =>
    let tgt_path := target_dir ++ stripped
    match fs src_path, fs tgt_path with
    | .ok src, .ok tgt => cmp_files src_path src tgt_path tgt
    | .ok _, .error tgtE => .ok [Record.missingInTarget src_path tgt_path tgtE]
    | .error srcE, .ok _ => .ok [Record.missingInSource src_path tgt_path srcE]
    | .error srcE, .error tgtE => .ok [Record.missingInBoth src_path tgt_path srcE tgtE]

/-- Run the comparison over a walk order: the records written to the
output file before any worker panic, paired with the panic (if any)
that aborted the run. A panicking entry writes nothing for its own
pair and ends the run. -/
def run_walk (fs : Fs) (source_dir target_dir : Path) : List Path → List Record × Option String
  | [] => ([], none)
  | p :: ps =>
    match process_entry fs source_dir target_dir p with
    | .error e => ([], some e)
    | .ok rs =>
      let rest := run_walk fs source_dir target_dir ps
      (rs ++ rest.1, rest.2)

/-- The walk produced by the traversal of the source root (jwalk,
modelled at its interface): the root path itself, then every reachable
entry's absolute path, each formed by appending its relative path to
the root. -/
def walk_of (source_dir : Path) (rels : List Path) : List Path :=
  source_dir :: rels.map (fun r => source_dir ++ r)

/-- Shallow embedding of deep_check's audit: walk the source tree and
process every walked path. -/
def deep_check (fs : Fs) (source_dir target_dir : Path) (rels : List Path) :
    List Record × Option String :=
  run_walk fs source_dir target_dir (walk_of source_dir rels)

/-- Shallow embedding of the directory-argument normalisation in main
(lines 60-70): m.strip_suffix of a slash, with unwrap_or(m). -/
def parse_dir (m : Path) : Path := stripSlash m

/-! ## The report sink as a transition system.

Each diagnostic record is formatted into one byte string and written by
a single write_all call performed while holding the Mutex around the
output file (main.rs lines 79-86, 146-161, 193-203).  The model makes
the byte-level writing visible: a worker may append bytes only while it
holds the lock, it acquires the lock only when free, and it releases
the lock only after its record's bytes are exhausted. -/

/-- Report-sink state: bytes written so far, the lock (holding the
remaining bytes of the record being written, if taken), and the bag of
records still to be written by the workers. -/
structure SinkCfg where
  out : List Nat
  lock : Option (List Nat)
  bag : List (List Nat)
deriving DecidableEq

/-- One scheduler step of the sink protocol: a worker whose record r is
still pending may take the free lock; the lock holder may append one
byte of its record; a holder whose record is exhausted releases. -/
inductive SinkStep : SinkCfg → SinkCfg → Prop where
  | acquire (o : List Nat) (l1 l2 : List (List Nat)) (r : List Nat) :
      SinkStep ⟨o, none, l1 ++ r :: l2⟩ ⟨o, some r, l1 ++ l2⟩
  | write (o : List Nat) (b : Nat) (bs : List Nat) (bag : List (List Nat)) :
      SinkStep ⟨o, some (b :: bs), bag⟩ ⟨o ++ [b], some bs, bag⟩
  | release (o : List Nat) (bag : List (List Nat)) :
      SinkStep ⟨o, some [], bag⟩ ⟨o, none, bag⟩

/-- Invariant of the sink protocol relative to the initial records R:
the output is a concatenation of finished records followed by the
written part of the in-flight record, and the finished, in-flight and
pending records together are exactly R. -/
def SinkInv (R : List (List Nat)) (σ : SinkCfg) : Prop :=
  ∃ done w, σ.out = done.flatten ++ w ∧
    (σ.lock = none → w = []) ∧
    (match σ.lock with
     | none => (done ++ σ.bag).Perm R
     | some rem => (done ++ ((w ++ rem) :: σ.bag)).Perm R)

/-! ## Concrete filesystem fixtures used by witnesses and
counterexamples -/

/-- Two identical trees rooted at s and t: the roots are directories
and each holds one regular file a with the same two bytes. -/
def fsIdent : Fs := fun p =>
  if p = ['s'] ∨ p = ['t'] then .ok (mkHandle .dir [])
  else if p = ['s', '/', 'a'] ∨ p = ['t', '/', 'a'] then .ok (mkHandle .file [104, 105])
  else .error "No such file"

/-- A target-only entry: both roots are directories, and only the
target holds the regular file b. -/
def fsTgtOnly : Fs := fun p =>
  if p = ['s'] ∨ p = ['t'] then .ok (mkHandle .dir [])
  else if p = ['t', '/', 'b'] then .ok (mkHandle .file [120])
  else .error "No such file"

/-- A digest-stage failure: for entry a both sides open but the target
metadata read fails; entry b is a genuine content mismatch that would
deserve a record. -/
def fsPanic : Fs := fun p =>
  if p = ['s', '/', 'a'] then .ok (mkHandle .file [1])
  else if p = ['t', '/', 'a'] then .ok ⟨.error "Permission denied", .ok []⟩
  else if p = ['s', '/', 'b'] then .ok (mkHandle .file [2])
  else if p = ['t', '/', 'b'] then .ok (mkHandle .file [3])
  else .error "No such file"

/-- A single pair of regular files with differing bytes. -/
def fsMismatch : Fs := fun p =>
  if p = ['s', '/', 'c'] then .ok (mkHandle .file [0])
  else if p = ['t', '/', 'c'] then .ok (mkHandle .file [1])
  else .error "No such file"

/-- A source root that opens while the target root does not exist. -/
def fsRootOnly : Fs := fun p =>
  if p = ['s'] then .ok (mkHandle .dir [])
  else .error "No such file"

/-- A source entry x that fails to open (e.g. a broken link) while its
target counterpart opens fine. -/
def fsBrokenSrc : Fs := fun p =>
  if p = ['s'] ∨ p = ['t'] then .ok (mkHandle .dir [])
  else if p = ['s', '/', 'x'] then .error "Permission denied"
  else if p = ['t', '/', 'x'] then .ok (mkHandle .file [9])
  else .error "No such file"

/-- The records one walked path contributes when its comparison does
not panic, and the empty list otherwise. -/
def recsOf (fs : Fs) (source_dir target_dir : Path) (p : Path) : List Record :=
  match process_entry fs source_dir target_dir p with
  | .ok rs => rs
  | .error _ => []

/-! ## Lemmas about paths -/

theorem relUnder_append (d r : Path) : relUnder d (d ++ r) = some r := by
  induction d with
  | nil => rfl
  | cons c d1 ih => simp [relUnder, ih]

theorem relUnder_self (d : Path) : relUnder d d = some [] := by
  have h := relUnder_append d []
  simpa using h

/-! ## Lemmas about the classifier -/

theorem bindOk {ε α β : Type} (a : α) (f : α → Except ε β) :
    (Except.ok a >>= f : Except ε β) = f a := rfl

theorem pureOk {ε α : Type} (a : α) : (pure a : Except ε α) = Except.ok a := rfl

theorem cmp_files_dir_dir (sp tp : Path) (s t : FileHandle)
    (hs : s.meta = .ok .dir) (ht : t.meta = .ok .dir) :
    cmp_files sp s tp t = .ok [] := by
  unfold cmp_files; rw [hs, ht]; rfl

theorem cmp_files_symlink_symlink (sp tp : Path) (s t : FileHandle)
    (hs : s.meta = .ok .symlink) (ht : t.meta = .ok .symlink) :
    cmp_files sp s tp t = .ok [] := by
  unfold cmp_files; rw [hs, ht]; rfl

theorem cmp_files_file_file (sp tp : Path) (s t : FileHandle) (c1 c2 : List Nat)
    (hs : s.meta = .ok .file) (ht : t.meta = .ok .file)
    (hc1 : s.contents = .ok c1) (hc2 : t.contents = .ok c2) :
    cmp_files sp s tp t =
      .ok (if Sha256 c1 = Sha256 c2 then []
           else [Record.hashMismatch sp (Sha256 c1) tp (Sha256 c2)]) := by
  unfold cmp_files
  rw [hs, ht, hc1, hc2]
  by_cases h : Sha256 c1 = Sha256 c2 <;>
    simp [bindOk, pureOk, FType.isDir, FType.isSymlink, FType.isFile, h]

theorem cmp_files_type_mismatch (sp tp : Path) (s t : FileHandle) (ms mt : FType)
    (hs : s.meta = .ok ms) (ht : t.meta = .ok mt)
    (hd : ¬(ms = .dir ∧ mt = .dir)) (hl : ¬(ms = .symlink ∧ mt = .symlink))
    (hf : ¬(ms = .file ∧ mt = .file)) :
    cmp_files sp s tp t = .ok [Record.typeMismatch sp tp] := by
  cases ms <;> cases mt
  case dir.dir => exact absurd ⟨rfl, rfl⟩ hd
  case symlink.symlink => exact absurd ⟨rfl, rfl⟩ hl
  case file.file => exact absurd ⟨rfl, rfl⟩ hf
  all_goals (unfold cmp_files; rw [hs, ht]; rfl)

theorem cmp_files_meta_src_err (sp tp : Path) (s t : FileHandle) (e : String)
    (hs : s.meta = .error e) : cmp_files sp s tp t = .error e := by
  unfold cmp_files; rw [hs]; rfl

theorem cmp_files_meta_tgt_err (sp tp : Path) (s t : FileHandle) (ms : FType) (e : String)
    (hs : s.meta = .ok ms) (ht : t.meta = .error e) : cmp_files sp s tp t = .error e := by
  unfold cmp_files; rw [hs, ht]; rfl

theorem cmp_files_src_read_err (sp tp : Path) (s t : FileHandle) (e : String)
    (hs : s.meta = .ok .file) (ht : t.meta = .ok .file)
    (hc : s.contents = .error e) : cmp_files sp s tp t = .error e := by
  unfold cmp_files; rw [hs, ht, hc]; rfl

theorem cmp_files_tgt_read_err (sp tp : Path) (s t : FileHandle) (c1 : List Nat) (e : String)
    (hs : s.meta = .ok .file) (ht : t.meta = .ok .file)
    (hc1 : s.contents = .ok c1) (hc2 : t.contents = .error e) :
    cmp_files sp s tp t = .error e := by
  unfold cmp_files; rw [hs, ht, hc1, hc2]; rfl

theorem cmp_files_src (sp tp : Path) (s t : FileHandle) (rs : List Record) (r : Record)
    (h : cmp_files sp s tp t = .ok rs) (hr : r ∈ rs) : r.srcOf = sp := by
  rcases hms : s.meta with e | ms
  · rw [cmp_files_meta_src_err sp tp s t e hms] at h; exact nomatch h
  rcases hmt : t.meta with e | mt
  · rw [cmp_files_meta_tgt_err sp tp s t ms e hms hmt] at h; exact nomatch h
  by_cases hdd : ms = .dir ∧ mt = .dir
  · rw [cmp_files_dir_dir sp tp s t (hdd.1 ▸ hms) (hdd.2 ▸ hmt)] at h
    cases h; exact nomatch hr
  by_cases hss : ms = .symlink ∧ mt = .symlink
  · rw [cmp_files_symlink_symlink sp tp s t (hss.1 ▸ hms) (hss.2 ▸ hmt)] at h
    cases h; exact nomatch hr
  by_cases hff : ms = .file ∧ mt = .file
  · rcases hcs : s.contents with e | c1
    · rw [cmp_files_src_read_err sp tp s t e (hff.1 ▸ hms) (hff.2 ▸ hmt) hcs] at h
      exact nomatch h
    rcases hct : t.contents with e | c2
    · rw [cmp_files_tgt_read_err sp tp s t c1 e (hff.1 ▸ hms) (hff.2 ▸ hmt) hcs hct] at h
      exact nomatch h
    rw [cmp_files_file_file sp tp s t c1 c2 (hff.1 ▸ hms) (hff.2 ▸ hmt) hcs hct] at h
    cases h
    by_cases hsha : Sha256 c1 = Sha256 c2
    · rw [if_pos hsha] at hr; exact nomatch hr
    · rw [if_neg hsha] at hr
      rw [List.mem_singleton] at hr
      subst hr; rfl
  · rw [cmp_files_type_mismatch sp tp s t ms mt hms hmt hdd hss hff] at h
    cases h
    rw [List.mem_singleton] at hr
    subst hr; rfl

/-! ## Lemmas about the per-entry dispatch and the run -/

theorem process_entry_both_ok (fs : Fs) (sd td p st : Path) (s t : FileHandle)
    (hrel : relUnder sd p = some st) (hs : fs p = .ok s) (ht : fs (td ++ st) = .ok t) :
    process_entry fs sd td p = cmp_files p s (td ++ st) t := by
  unfold process_entry
  rw [hrel]
  simp only []
  rw [hs, ht]

theorem process_entry_missing_tgt (fs : Fs) (sd td p st : Path) (s : FileHandle) (e : String)
    (hrel : relUnder sd p = some st) (hs : fs p = .ok s) (ht : fs (td ++ st) = .error e) :
    process_entry fs sd td p = .ok [Record.missingInTarget p (td ++ st) e] := by
  unfold process_entry
  rw [hrel]
  simp only []
  rw [hs, ht]

theorem process_entry_missing_src (fs : Fs) (sd td p st : Path) (t : FileHandle) (e : String)
    (hrel : relUnder sd p = some st) (hs : fs p = .error e) (ht : fs (td ++ st) = .ok t) :
    process_entry fs sd td p = .ok [Record.missingInSource p (td ++ st) e] := by
  unfold process_entry
  rw [hrel]
  simp only []
  rw [hs, ht]

theorem process_entry_missing_both (fs : Fs) (sd td p st : Path) (e1 e2 : String)
    (hrel : relUnder sd p = some st) (hs : fs p = .error e1) (ht : fs (td ++ st) = .error e2) :
    process_entry fs sd td p = .ok [Record.missingInBoth p (td ++ st) e1 e2] := by
  unfold process_entry
  rw [hrel]
  simp only []
  rw [hs, ht]

theorem process_entry_src (fs : Fs) (sd td p : Path) (rs : List Record) (r : Record)
    (h : process_entry fs sd td p = .ok rs) (hr : r ∈ rs) : r.srcOf = p := by
  rcases hrel : relUnder sd p with _ | st
  · unfold process_entry at h; rw [hrel] at h; exact nomatch h
  rcases hs : fs p with e1 | s <;> rcases ht : fs (td ++ st) with e2 | t
  · rw [process_entry_missing_both fs sd td p st e1 e2 hrel hs ht] at h
    cases h; rw [List.mem_singleton] at hr; subst hr; rfl
  · rw [process_entry_missing_src fs sd td p st t e1 hrel hs ht] at h
    cases h; rw [List.mem_singleton] at hr; subst hr; rfl
  · rw [process_entry_missing_tgt fs sd td p st s e2 hrel hs ht] at h
    cases h; rw [List.mem_singleton] at hr; subst hr; rfl
  · rw [process_entry_both_ok fs sd td p st s t hrel hs ht] at h
    exact cmp_files_src p (td ++ st) s t rs r h hr

theorem run_walk_ok (fs : Fs) (sd td : Path) (walk : List Path)
    (h : ∀ p ∈ walk, ∃ rs, process_entry fs sd td p = .ok rs) :
    run_walk fs sd td walk = (walk.flatMap (recsOf fs sd td), none) := by
  induction walk with
  | nil => rfl
  | cons p ps ih =>
    obtain ⟨rs, hrs⟩ := h p (List.mem_cons_self p ps)
    have ih2 := ih (fun q hq => h q (List.mem_cons_of_mem p hq))
    simp [run_walk, hrs, ih2, recsOf]

theorem run_walk_panics (fs : Fs) (sd td : Path) (walk : List Path) (p : Path) (e : String)
    (hp : p ∈ walk) (he : process_entry fs sd td p = .error e) :
    ∃ e2, (run_walk fs sd td walk).2 = some e2 := by
  induction walk with
  | nil => exact nomatch hp
  | cons q ps ih =>
    rcases hq : process_entry fs sd td q with e2 | rs
    · exact ⟨e2, by simp [run_walk, hq]⟩
    · rcases List.mem_cons.mp hp with h1 | h1
      · rw [← h1, he] at hq; exact nomatch hq
      · obtain ⟨e2, h2⟩ := ih h1
        exact ⟨e2, by simp [run_walk, hq, h2]⟩

theorem filterBind (l : List Path) (f : Path → List Record) (pr : Record → Bool) :
    (l.flatMap f).filter pr = l.flatMap (fun a => (f a).filter pr) := by
  induction l with
  | nil => rfl
  | cons a l ih => simp [List.flatMap_cons, List.filter_append, ih]

theorem bindSingle (l : List Path) (f : Path → List Record) (p : Path)
    (hp : p ∈ l) (hnd : l.Nodup) (hothers : ∀ q ∈ l, q ≠ p → f q = []) :
    l.flatMap f = f p := by
  induction l with
  | nil => exact nomatch hp
  | cons a l ih =>
    rcases List.nodup_cons.mp hnd with ⟨hna, hndl⟩
    rcases List.mem_cons.mp hp with h1 | h1
    · have hz : l.flatMap f = [] := by
        rw [List.flatMap_eq_nil_iff]
        intro q hq
        apply hothers q (List.mem_cons_of_mem a hq)
        intro hqp
        apply hna
        rw [← h1, ← hqp]
        exact hq
      rw [List.flatMap_cons, hz, List.append_nil, ← h1]
    · have ha : a ≠ p := fun h => hna (h ▸ h1)
      have := ih h1 hndl (fun q hq hqp => hothers q (List.mem_cons_of_mem a hq) hqp)
      simp [List.flatMap_cons, hothers a (List.mem_cons_self a l) ha, this]

theorem run_walk_records (fs : Fs) (sd td : Path) (walk : List Path) (r : Record)
    (hr : r ∈ (run_walk fs sd td walk).1) :
    ∃ q rs, q ∈ walk ∧ process_entry fs sd td q = .ok rs ∧ r ∈ rs := by
  induction walk with
  | nil => exact nomatch hr
  | cons q ps ih =>
    rcases hq : process_entry fs sd td q with e | rs
    · rw [show run_walk fs sd td (q :: ps) = ([], some e) by simp [run_walk, hq]] at hr
      exact nomatch hr
    · rw [show (run_walk fs sd td (q :: ps)).1 = rs ++ (run_walk fs sd td ps).1 by
        simp [run_walk, hq]] at hr
      rcases List.mem_append.mp hr with h1 | h1
      · exact ⟨q, rs, List.mem_cons_self q ps, hq, h1⟩
      · obtain ⟨q2, rs2, hq2, hpr, hr2⟩ := ih h1
        exact ⟨q2, rs2, List.mem_cons_of_mem q hq2, hpr, hr2⟩

/-! ## Sink protocol lemmas -/

theorem sink_inv_init (R : List (List Nat)) : SinkInv R ⟨[], none, R⟩ :=
  ⟨[], [], rfl, fun _ => rfl, by simp [SinkInv]⟩

theorem sink_inv_step (R : List (List Nat)) (σ σ2 : SinkCfg)
    (hinv : SinkInv R σ) (hstep : SinkStep σ σ2) : SinkInv R σ2 := by
  obtain ⟨done, w, hout, hw, hperm⟩ := hinv
  cases hstep with
  | acquire o l1 l2 r =>
    have hp : (done ++ (l1 ++ r :: l2)).Perm R := hperm
    have hout2 : o = done.flatten ++ w := hout
    have hw0 : w = [] := hw rfl
    subst hw0
    refine ⟨done, [], by simpa using hout2, fun _ => rfl, ?_⟩
    show (done ++ (([] ++ r) :: (l1 ++ l2))).Perm R
    have h1 : (done ++ (([] ++ r) :: (l1 ++ l2))) = done ++ (r :: (l1 ++ l2)) := by simp
    rw [h1]
    exact List.Perm.trans (List.Perm.append_left done List.perm_middle.symm) hp
  | write o b bs bag =>
    have hp : (done ++ ((w ++ (b :: bs)) :: bag)).Perm R := hperm
    have hout2 : o = done.flatten ++ w := hout
    refine ⟨done, w ++ [b], by rw [hout2, List.append_assoc], fun h => Option.noConfusion h, ?_⟩
    show (done ++ ((w ++ [b] ++ bs) :: bag)).Perm R
    have h1 : done ++ ((w ++ [b] ++ bs) :: bag) = done ++ ((w ++ (b :: bs)) :: bag) := by simp
    rw [h1]
    exact hp
  | release o bag =>
    have hp : (done ++ ((w ++ []) :: bag)).Perm R := hperm
    have hout2 : o = done.flatten ++ w := hout
    refine ⟨done ++ [w], [], by simp [hout2], fun _ => rfl, ?_⟩
    show (done ++ [w] ++ bag).Perm R
    have h1 : done ++ [w] ++ bag = done ++ ((w ++ []) :: bag) := by simp
    rw [h1]
    exact hp

theorem sink_inv_reach (R : List (List Nat)) (σf : SinkCfg)
    (hsteps : Relation.ReflTransGen SinkStep ⟨[], none, R⟩ σf) : SinkInv R σf := by
  induction hsteps with
  | refl => exact sink_inv_init R
  | tail h1 h2 ih => exact sink_inv_step R _ _ ih h2

theorem recsOf_src (fs : Fs) (sd td : Path) (q : Path) (r : Record)
    (hr : r ∈ recsOf fs sd td q) : r.srcOf = q := by
  unfold recsOf at hr
  rcases hpr : process_entry fs sd td q with e | rs
  · rw [hpr] at hr
    exact nomatch hr
  · rw [hpr] at hr
    exact process_entry_src fs sd td q rs r hpr hr

theorem recsOf_filter_ne (fs : Fs) (sd td : Path) (p q : Path) (hqp : q ≠ p) :
    (recsOf fs sd td q).filter (fun r => decide (r.srcOf = p)) = [] := by
  rw [List.filter_eq_nil_iff]
  intro r hr
  have h1 := recsOf_src fs sd td q r hr
  simp [h1, hqp]

theorem stripSlash_concat (d : Path) : stripSlash (d ++ ['/']) = d := by
  unfold stripSlash
  rw [List.reverse_append]
  simp

theorem stripSlash_no_slash (d : Path) (h : d.getLast? ≠ some '/') : stripSlash d = d := by
  unfold stripSlash
  rcases hrev : d.reverse with _ | ⟨c, r⟩
  · rfl
  · have hc : d.getLast? = some c := by
      rw [← List.head?_reverse, hrev]
      rfl
    have : c ≠ '/' := fun hcc => h (hcc ▸ hc)
    show (if c = '/' then r.reverse else d) = d
    rw [if_neg this]

theorem stripSlash_with_slash (d : Path) (h : d.getLast? = some '/') :
    stripSlash d = d.dropLast := by
  unfold stripSlash
  rcases hrev : d.reverse with _ | ⟨c, r⟩
  · rw [← List.head?_reverse, hrev] at h
    exact nomatch h
  · have hc : d.getLast? = some c := by
      rw [← List.head?_reverse, hrev]
      rfl
    rw [hc] at h
    have hcs : c = '/' := (Option.some.injEq _ _).mp h.symm |>.symm
    show (if c = '/' then r.reverse else d) = d.dropLast
    rw [if_pos hcs]
    have hd : d = r.reverse ++ [c] := by
      rw [← List.reverse_reverse d, hrev]
      simp
    rw [hd, List.dropLast_concat]

/-! ## Claim theorems -/

/-- C2: for every dispatched pair where both sides open successfully,
the classifier applies the decision table first-matching-rule-wins: two
directories yield no record; two regular files are digest-compared and
yield a record exactly when the digests differ; any combination not
matched by an earlier row (both directories, both symlinks, both
regular files) yields exactly one TypeMismatch record. -/
theorem claim_C2_decision_table (sp tp : Path) (s t : FileHandle) (ms mt : FType)
    (hs : s.meta = .ok ms) (ht : t.meta = .ok mt) :
    (ms = .dir → mt = .dir → cmp_files sp s tp t = .ok [])
    ∧ (∀ c1 c2, ms = .file → mt = .file → s.contents = .ok c1 → t.contents = .ok c2 →
        cmp_files sp s tp t =
          .ok (if Sha256 c1 = Sha256 c2 then []
               else [Record.hashMismatch sp (Sha256 c1) tp (Sha256 c2)]))
    ∧ (¬(ms = .dir ∧ mt = .dir) → ¬(ms = .symlink ∧ mt = .symlink) →
        ¬(ms = .file ∧ mt = .file) →
        cmp_files sp s tp t = .ok [Record.typeMismatch sp tp]) := by
  refine ⟨?_, ?_, ?_⟩
  · intro h1 h2
    exact cmp_files_dir_dir sp tp s t (h1 ▸ hs) (h2 ▸ ht)
  · intro c1 c2 h1 h2 hc1 hc2
    exact cmp_files_file_file sp tp s t c1 c2 (h1 ▸ hs) (h2 ▸ ht) hc1 hc2
  · exact cmp_files_type_mismatch sp tp s t ms mt hs ht

/-- Witness for C2: a regular file against a directory yields exactly
one TypeMismatch record. -/
theorem claim_C2_decision_table_witness :
    cmp_files ['a'] (mkHandle .file [1]) ['b'] (mkHandle .dir []) =
      .ok [Record.typeMismatch ['a'] ['b']] :=
  (claim_C2_decision_table ['a'] ['b'] (mkHandle .file [1]) (mkHandle .dir [])
      .file .dir rfl rfl).2.2 (by decide) (by decide) (by decide)

/-- C5: two symlinks are classified as matching and emit no record, and
the outcome never inspects the handles beyond their metadata, so two
symlinks with different targets are likewise reported as a match. -/
theorem claim_C5_symlinks_never_followed (sp tp : Path) (s t : FileHandle)
    (hs : s.meta = .ok .symlink) (ht : t.meta = .ok .symlink) :
    cmp_files sp s tp t = .ok []
    ∧ ∀ s2 t2 : FileHandle, s2.meta = .ok .symlink → t2.meta = .ok .symlink →
        cmp_files sp s2 tp t2 = cmp_files sp s tp t := by
  have h1 := cmp_files_symlink_symlink sp tp s t hs ht
  exact ⟨h1, fun s2 t2 hs2 ht2 => by
    rw [cmp_files_symlink_symlink sp tp s2 t2 hs2 ht2, h1]⟩

/-- Witness for C5: two symlinks whose (modelled) targets differ still
produce no record. -/
theorem claim_C5_symlinks_never_followed_witness :
    cmp_files ['s'] (mkHandle .symlink [1]) ['t'] (mkHandle .symlink [2]) = .ok [] :=
  (claim_C5_symlinks_never_followed ['s'] ['t']
      (mkHandle .symlink [1]) (mkHandle .symlink [2]) rfl rfl).1

/-- C3: over identical trees (every walked source path resolves on both
sides to entries of the same type with the same bytes) the completed
audit emits zero diagnostic records and no panic occurs. -/
theorem claim_C3_identical_trees (fs : Fs) (sd td : Path) (walk : List Path)
    (hident : ∀ p ∈ walk, ∃ st ft c, relUnder sd p = some st ∧
        fs p = .ok (mkHandle ft c) ∧ fs (td ++ st) = .ok (mkHandle ft c)) :
    run_walk fs sd td walk = ([], none) := by
  have hok : ∀ p ∈ walk, process_entry fs sd td p = .ok [] := by
    intro p hp
    obtain ⟨st, ft, c, hrel, hs, ht⟩ := hident p hp
    rw [process_entry_both_ok fs sd td p st _ _ hrel hs ht]
    cases ft
    · exact cmp_files_dir_dir _ _ _ _ rfl rfl
    · exact cmp_files_symlink_symlink _ _ _ _ rfl rfl
    · rw [cmp_files_file_file _ _ _ _ c c rfl rfl rfl rfl, if_pos rfl]
  rw [run_walk_ok fs sd td walk (fun p hp => ⟨[], hok p hp⟩)]
  have hz : walk.flatMap (recsOf fs sd td) = [] := by
    rw [List.flatMap_eq_nil_iff]
    intro p hp
    unfold recsOf
    rw [hok p hp]
  rw [hz]

/-- Witness for C3: two concrete identical trees (a directory root
holding one regular file) audit to an empty report. -/
theorem claim_C3_identical_trees_witness :
    run_walk fsIdent ['s'] ['t'] [['s'], ['s', '/', 'a']] = ([], none) := by
  apply claim_C3_identical_trees
  intro p hp
  rcases List.mem_cons.mp hp with h1 | h1
  · subst h1
    exact ⟨[], .dir, [], rfl, rfl, rfl⟩
  · rw [List.mem_singleton] at h1
    subst h1
    exact ⟨['/', 'a'], .file, [104, 105], rfl, rfl, rfl⟩

/-- C8: two runs over unchanged trees whose walks enumerate the same
paths (in possibly different orders) both complete and produce the same
multiset of diagnostic records: the set of record contents is
byte-identical, only the order may differ. -/
theorem claim_C8_idempotent_runs (fs : Fs) (sd td : Path) (walk1 walk2 : List Path)
    (hperm : walk1.Perm walk2)
    (hok : ∀ p ∈ walk1, ∃ rs, process_entry fs sd td p = .ok rs) :
    (run_walk fs sd td walk1).1.Perm (run_walk fs sd td walk2).1
    ∧ (run_walk fs sd td walk1).2 = none
    ∧ (run_walk fs sd td walk2).2 = none := by
  have hok2 : ∀ p ∈ walk2, ∃ rs, process_entry fs sd td p = .ok rs :=
    fun p hp => hok p (hperm.mem_iff.mpr hp)
  rw [run_walk_ok fs sd td walk1 hok, run_walk_ok fs sd td walk2 hok2]
  exact ⟨hperm.flatMap_right (recsOf fs sd td), rfl, rfl⟩

/-- Witness for C8: the two-entry mismatching tree walked in both
orders yields permuted (here in fact equal-up-to-order) outputs and
both runs complete. -/
theorem claim_C8_idempotent_runs_witness :
    (run_walk fsBrokenSrc ['s'] ['t'] [['s'], ['s', '/', 'x']]).1.Perm
      (run_walk fsBrokenSrc ['s'] ['t'] [['s', '/', 'x'], ['s']]).1
    ∧ (run_walk fsBrokenSrc ['s'] ['t'] [['s'], ['s', '/', 'x']]).2 = none
    ∧ (run_walk fsBrokenSrc ['s'] ['t'] [['s', '/', 'x'], ['s']]).2 = none := by
  apply claim_C8_idempotent_runs
  · exact List.Perm.swap ['s', '/', 'x'] ['s'] []
  · intro p hp
    rcases List.mem_cons.mp hp with h1 | h1
    · subst h1
      exact ⟨[], by decide⟩
    · rw [List.mem_singleton] at h1
      subst h1
      exact ⟨[Record.missingInSource ['s', '/', 'x'] ['t', '/', 'x'] "Permission denied"],
        by decide⟩

/-- C1 counterexample: the entry b exists only under the target root
(present as t/b, absent as s/b), yet the completed audit over the
source walk emits no record at all — in particular not the one
MissingInSource record the claim requires. -/
theorem claim_C1_counterexample :
    fsTgtOnly ['t', '/', 'b'] = .ok (mkHandle .file [120])
    ∧ fsTgtOnly ['s', '/', 'b'] = .error "No such file"
    ∧ deep_check fsTgtOnly ['s'] ['t'] [] = ([], none) := by
  refine ⟨rfl, rfl, rfl⟩

/-- C1 amended: every record of a completed audit names a walked source
path, so paths present only under the target (never walked) yield no
record; a MissingInSource record is emitted exactly once for a walked
source path whose source open fails while the target open succeeds. -/
theorem claim_C1_missing_in_source_amended (fs : Fs) (sd td : Path) (walk : List Path) :
    (∀ r, r ∈ (run_walk fs sd td walk).1 → r.srcOf ∈ walk)
    ∧ (∀ p st t e, walk.Nodup → p ∈ walk →
        (∀ q ∈ walk, ∃ rs, process_entry fs sd td q = .ok rs) →
        relUnder sd p = some st → fs p = .error e → fs (td ++ st) = .ok t →
        (run_walk fs sd td walk).1.filter (fun r => decide (r.srcOf = p))
          = [Record.missingInSource p (td ++ st) e]) := by
  constructor
  · intro r hr
    obtain ⟨q, rs, hq, hpr, hrs⟩ := run_walk_records fs sd td walk r hr
    rw [process_entry_src fs sd td q rs r hpr hrs]
    exact hq
  · intro p st t e hnd hp hok hrel hs ht
    rw [run_walk_ok fs sd td walk hok, filterBind]
    have hpe : process_entry fs sd td p = .ok [Record.missingInSource p (td ++ st) e] :=
      process_entry_missing_src fs sd td p st t e hrel hs ht
    rw [bindSingle walk _ p hp hnd (fun q _ hqp => recsOf_filter_ne fs sd td p q hqp)]
    unfold recsOf
    rw [hpe]
    simp [Record.srcOf]

/-- Witness for the amended C1: a source entry x that fails to open
while its target counterpart opens produces exactly one MissingInSource
record. -/
theorem claim_C1_missing_in_source_amended_witness :
    (run_walk fsBrokenSrc ['s'] ['t'] [['s'], ['s', '/', 'x']]).1.filter
        (fun r => decide (r.srcOf = ['s', '/', 'x']))
      = [Record.missingInSource ['s', '/', 'x'] ['t', '/', 'x'] "Permission denied"] := by
  apply (claim_C1_missing_in_source_amended fsBrokenSrc ['s'] ['t']
      [['s'], ['s', '/', 'x']]).2 ['s', '/', 'x'] ['/', 'x'] (mkHandle .file [9])
      "Permission denied" (by decide) (by decide)
  · intro q hq
    rcases List.mem_cons.mp hq with h1 | h1
    · subst h1
      exact ⟨[], by decide⟩
    · rw [List.mem_singleton] at h1
      subst h1
      exact ⟨[Record.missingInSource ['s', '/', 'x'] ['t', '/', 'x'] "Permission denied"],
        by decide⟩
  · rfl
  · rfl
  · rfl

/-- C4: a pair of regular files with differing digests contributes
exactly one record to the completed audit, a content-mismatch record
naming the digests of the two files' entire contents, and those digests
are unequal. -/
theorem claim_C4_content_mismatch (fs : Fs) (sd td : Path) (walk : List Path)
    (p st : Path) (c1 c2 : List Nat)
    (hnd : walk.Nodup) (hp : p ∈ walk)
    (hok : ∀ q ∈ walk, ∃ rs, process_entry fs sd td q = .ok rs)
    (hrel : relUnder sd p = some st)
    (hs : fs p = .ok (mkHandle .file c1)) (ht : fs (td ++ st) = .ok (mkHandle .file c2))
    (hneq : Sha256 c1 ≠ Sha256 c2) :
    (run_walk fs sd td walk).1.filter (fun r => decide (r.srcOf = p))
      = [Record.hashMismatch p (Sha256 c1) (td ++ st) (Sha256 c2)] := by
  rw [run_walk_ok fs sd td walk hok, filterBind]
  have hpe : process_entry fs sd td p
      = .ok [Record.hashMismatch p (Sha256 c1) (td ++ st) (Sha256 c2)] := by
    rw [process_entry_both_ok fs sd td p st _ _ hrel hs ht,
        cmp_files_file_file _ _ _ _ c1 c2 rfl rfl rfl rfl, if_neg hneq]
  rw [bindSingle walk _ p hp hnd (fun q _ hqp => recsOf_filter_ne fs sd td p q hqp)]
  unfold recsOf
  rw [hpe]
  simp [Record.srcOf]

set_option maxRecDepth 1000000 in
/-- Witness for C4: the one-byte files 0 and 1 produce exactly one
mismatch record carrying their two (unequal) SHA-256 digests. -/
theorem claim_C4_content_mismatch_witness :
    (run_walk fsMismatch ['s'] ['t'] [['s', '/', 'c']]).1.filter
        (fun r => decide (r.srcOf = ['s', '/', 'c']))
      = [Record.hashMismatch ['s', '/', 'c'] (Sha256 [0]) ['t', '/', 'c'] (Sha256 [1])] := by
  apply claim_C4_content_mismatch fsMismatch ['s'] ['t'] [['s', '/', 'c']] ['s', '/', 'c']
      ['/', 'c'] [0] [1] (by decide) (by decide)
  · intro q hq
    rw [List.mem_singleton] at hq
    subst hq
    exact ⟨_, by
      rw [process_entry_both_ok fsMismatch ['s'] ['t'] ['s', '/', 'c'] ['/', 'c']
            (mkHandle .file [0]) (mkHandle .file [1]) rfl rfl rfl,
          cmp_files_file_file _ _ _ _ [0] [1] rfl rfl rfl rfl]⟩
  · rfl
  · rfl
  · rfl
  · decide

/-- C6 counterexample: for entry a both files open but the target-side
metadata read fails; the run aborts with that error and records
nothing — not even the genuine content mismatch of the later entry b —
contradicting the claim that the failure is recorded as a diagnostic
for that single pair and does not abort the run. -/
theorem claim_C6_counterexample :
    fsPanic ['s', '/', 'a'] = .ok (mkHandle .file [1])
    ∧ fsPanic ['t', '/', 'a'] = .ok ⟨.error "Permission denied", .ok []⟩
    ∧ run_walk fsPanic ['s'] ['t'] [['s', '/', 'a'], ['s', '/', 'b']]
        = ([], some "Permission denied") := by
  refine ⟨rfl, rfl, rfl⟩

/-- C6 amended: a metadata read failure or a mid-stream content read
failure after both opens succeed makes the worker panic: the run aborts
with an error and no diagnostic record is emitted for that pair. -/
theorem claim_C6_digest_errors_abort (fs : Fs) (sd td : Path) (walk : List Path)
    (p st : Path) (s t : FileHandle) (e : String)
    (hp : p ∈ walk) (hrel : relUnder sd p = some st)
    (hs : fs p = .ok s) (ht : fs (td ++ st) = .ok t)
    (herr : s.meta = .error e
      ∨ (∃ ms, s.meta = .ok ms ∧ t.meta = .error e)
      ∨ (s.meta = .ok .file ∧ t.meta = .ok .file ∧ s.contents = .error e)
      ∨ (∃ c1, s.meta = .ok .file ∧ t.meta = .ok .file
          ∧ s.contents = .ok c1 ∧ t.contents = .error e)) :
    (∃ e2, (run_walk fs sd td walk).2 = some e2)
    ∧ ∀ r ∈ (run_walk fs sd td walk).1, r.srcOf ≠ p := by
  have hpe : process_entry fs sd td p = .error e := by
    rw [process_entry_both_ok fs sd td p st s t hrel hs ht]
    rcases herr with h1 | ⟨ms, h1, h2⟩ | ⟨h1, h2, h3⟩ | ⟨c1, h1, h2, h3, h4⟩
    · exact cmp_files_meta_src_err p (td ++ st) s t e h1
    · exact cmp_files_meta_tgt_err p (td ++ st) s t ms e h1 h2
    · exact cmp_files_src_read_err p (td ++ st) s t e h1 h2 h3
    · exact cmp_files_tgt_read_err p (td ++ st) s t c1 e h1 h2 h3 h4
  constructor
  · exact run_walk_panics fs sd td walk p e hp hpe
  · intro r hr
    obtain ⟨q, rs, hq, hpr, hrs⟩ := run_walk_records fs sd td walk r hr
    rw [process_entry_src fs sd td q rs r hpr hrs]
    intro hqp
    rw [hqp, hpe] at hpr
    exact nomatch hpr

/-- Witness for the amended C6: the concrete failing tree aborts and
leaves no record for the failing pair. -/
theorem claim_C6_digest_errors_abort_witness :
    (∃ e2, (run_walk fsPanic ['s'] ['t'] [['s', '/', 'a'], ['s', '/', 'b']]).2 = some e2)
    ∧ ∀ r ∈ (run_walk fsPanic ['s'] ['t'] [['s', '/', 'a'], ['s', '/', 'b']]).1,
        r.srcOf ≠ ['s', '/', 'a'] :=
  claim_C6_digest_errors_abort fsPanic ['s'] ['t'] [['s', '/', 'a'], ['s', '/', 'b']]
    ['s', '/', 'a'] ['/', 'a'] (mkHandle .file [1]) ⟨.error "Permission denied", .ok []⟩
    "Permission denied" (List.mem_cons_self _ _) rfl rfl rfl
    (Or.inr (Or.inl ⟨.file, rfl, rfl⟩))

/-- C7: under the lock discipline of the sink protocol, any completed
schedule (lock free, no pending records) leaves the output file a
concatenation of exactly the submitted records: each record is one
contiguous complete unit, none is lost, duplicated, corrupted or
truncated, whatever the interleaving of workers. -/
theorem claim_C7_no_interleaving (R : List (List Nat)) (f : SinkCfg)
    (hsteps : Relation.ReflTransGen SinkStep ⟨[], none, R⟩ f)
    (hlock : f.lock = none) (hbag : f.bag = []) :
    ∃ done : List (List Nat), f.out = done.flatten ∧ done.Perm R := by
  obtain ⟨done, w, hout, hw, hperm⟩ := sink_inv_reach R f hsteps
  have hw0 : w = [] := hw hlock
  subst hw0
  refine ⟨done, by simpa using hout, ?_⟩
  rw [hlock] at hperm
  have hp : (done ++ f.bag).Perm R := hperm
  rw [hbag] at hp
  simpa using hp

/-- Witness for C7: a two-byte record written under the protocol
appears contiguously in the final output. -/
theorem claim_C7_no_interleaving_witness :
    ∃ done : List (List Nat), ([1, 2] : List Nat) = done.flatten ∧ done.Perm [[1, 2]] := by
  have h0 : SinkStep ⟨[], none, [[1, 2]]⟩ ⟨[], some [1, 2], []⟩ :=
    SinkStep.acquire [] [] [] [1, 2]
  have h1 : SinkStep ⟨[], some [1, 2], []⟩ ⟨[1], some [2], []⟩ := SinkStep.write [] 1 [2] []
  have h2 : SinkStep ⟨[1], some [2], []⟩ ⟨[1, 2], some [], []⟩ := SinkStep.write [1] 2 [] []
  have h3 : SinkStep ⟨[1, 2], some [], []⟩ ⟨[1, 2], none, []⟩ := SinkStep.release [1, 2] []
  have hsteps : Relation.ReflTransGen SinkStep ⟨[], none, [[1, 2]]⟩ ⟨[1, 2], none, []⟩ :=
    Relation.ReflTransGen.head h0 (Relation.ReflTransGen.head h1
      (Relation.ReflTransGen.head h2 (Relation.ReflTransGen.single h3)))
  exact claim_C7_no_interleaving [[1, 2]] ⟨[1, 2], none, []⟩ hsteps rfl rfl

/-- C9: argument normalisation strips exactly one trailing slash: a
slash-terminated argument parses like its slash-free form, a
double-slash-terminated argument keeps exactly one slash, and an
argument without trailing slash is unchanged. -/
theorem claim_C9_trailing_slash (d : Path) :
    (d.getLast? ≠ some '/' → parse_dir (d ++ ['/']) = parse_dir d)
    ∧ parse_dir (d ++ ['/', '/']) = d ++ ['/']
    ∧ (d.getLast? = some '/' → parse_dir d = d.dropLast)
    ∧ (d.getLast? ≠ some '/' → parse_dir d = d) := by
  refine ⟨?_, ?_, ?_, ?_⟩
  · intro h
    unfold parse_dir
    rw [stripSlash_concat, stripSlash_no_slash d h]
  · unfold parse_dir
    have : d ++ ['/', '/'] = (d ++ ['/']) ++ ['/'] := by simp
    rw [this, stripSlash_concat]
  · exact stripSlash_with_slash d
  · exact stripSlash_no_slash d

/-- Witness for C9 at the concrete argument dir. -/
theorem claim_C9_trailing_slash_witness :
    parse_dir ['d', 'i', 'r', '/'] = parse_dir ['d', 'i', 'r']
    ∧ parse_dir ['d', 'i', 'r', '/', '/'] = ['d', 'i', 'r', '/'] :=
  ⟨(claim_C9_trailing_slash ['d', 'i', 'r']).1 (by decide),
   (claim_C9_trailing_slash ['d', 'i', 'r']).2.1⟩

/-- C10: the walk yields the source root itself, pairing it (empty
relative path) with the target root; when the target root cannot be
opened, a missing-in-target record naming the two roots is in the
output. -/
theorem claim_C10_root_pair (fs : Fs) (sd td : Path) (rels : List Path)
    (h0 : FileHandle) (e : String)
    (hs : fs sd = .ok h0) (ht : fs td = .error e) :
    sd ∈ walk_of sd rels
    ∧ relUnder sd sd = some []
    ∧ Record.missingInTarget sd td e ∈ (deep_check fs sd td rels).1 := by
  refine ⟨List.mem_cons_self sd _, relUnder_self sd, ?_⟩
  unfold deep_check
  have hpe : process_entry fs sd td sd = .ok [Record.missingInTarget sd td e] := by
    have h1 := process_entry_missing_tgt fs sd td sd [] h0 e (relUnder_self sd) hs
      (by simpa using ht)
    simpa using h1
  have h2 : (run_walk fs sd td (walk_of sd rels)).1
      = Record.missingInTarget sd td e
        :: (run_walk fs sd td (rels.map (fun r => sd ++ r))).1 := by
    simp [walk_of, run_walk, hpe]
  rw [h2]
  exact List.mem_cons_self _ _

/-- Witness for C10: a source root with no target root produces the
missing-in-target record for the root pair. -/
theorem claim_C10_root_pair_witness :
    Record.missingInTarget ['s'] ['t'] "No such file"
      ∈ (deep_check fsRootOnly ['s'] ['t'] []).1 :=
  (claim_C10_root_pair fsRootOnly ['s'] ['t'] [] (mkHandle .dir [])
    "No such file" rfl rfl).2.2

end Audit
